import Mathlib

/-! kubetype-gen, the types generator.

A model of `cmd/kubetype-gen/generators/types.go`: the parser of the status override
directive, `statusOverrideFromComments`, and the generator method `GenerateType` with the
template `kubeTypeTemplate` it expands for every kube type.

Go strings are modelled by `String` (valid UTF-8 text, one `Char` per rune); slices by
`List`. The library functions the file calls (`strings.Contains`, `strings.Split`,
`strings.TrimSpace`, `slices.IndexFunc`, the snippet writer of gengo and the fragment of
`text/template` that the template uses) are modelled next to the code that calls them.
-/

namespace KubetypeGen

/-! ## Library functions used by statusOverrideFromComments -/

/-- The constant istioStatusOveride. -/
def istioStatusOveride : String := "istiostatus-override:"

/-- Go's unicode.IsSpace: the runes with the Unicode property White_Space. -/
def unicodeIsSpace (r : Char) : Bool :=
  let n := r.toNat
  (0x09 ≤ n && n ≤ 0x0D) || n = 0x20 || n = 0x85 || n = 0xA0 || n = 0x1680 ||
  (0x2000 ≤ n && n ≤ 0x200A) || n = 0x2028 || n = 0x2029 || n = 0x202F ||
  n = 0x205F || n = 0x3000

/-- Go's strings.TrimSpace: the string without its leading and trailing white space. -/
def stringsTrimSpace (s : String) : String :=
  ⟨(s.data.dropWhile unicodeIsSpace).rdropWhile unicodeIsSpace⟩

/-- Whether substr starts at some position of the given text. -/
def containsFrom (substr : List Char) : List Char → Bool
  | [] => substr.isPrefixOf []
  | c :: cs => substr.isPrefixOf (c :: cs) || containsFrom substr cs

/-- Go's strings.Contains. -/
def stringsContains (s substr : String) : Bool :=
  containsFrom substr.data s.data

/-- Cutting at every occurrence of a non-empty separator, left to right. Arguments: the
rest of the text, the characters of the current piece in reverse, and how many characters
of a separator just found are still to be skipped. -/
def splitFrom (sep : List Char) : List Char → List Char → Nat → List String
  | [], cur, _ => [⟨cur.reverse⟩]
  | _ :: cs, cur, skip + 1 => splitFrom sep cs cur skip
  | c :: cs, cur, 0 =>
    if sep.isPrefixOf (c :: cs) then ⟨cur.reverse⟩ :: splitFrom sep cs [] (sep.length - 1)
    else splitFrom sep cs (c :: cur) 0

/-- Go's strings.Split: the pieces of s between the occurrences of sep; with an empty
separator, the runes of s. -/
def stringsSplit (s sep : String) : List String :=
  if sep.data.isEmpty then s.data.map (fun c => ⟨[c]⟩) else splitFrom sep.data s.data [] 0

/-- The loop of slices.IndexFunc from index i on. -/
def indexFrom {α : Type} (f : α → Bool) : List α → Nat → Int
  | [], _ => -1
  | x :: xs, i => if f x then (i : Int) else indexFrom f xs (i + 1)

/-- Go's slices.IndexFunc: the first index whose element satisfies f, or -1. -/
def slicesIndexFunc {α : Type} (s : List α) (f : α → Bool) : Int :=
  indexFrom f s 0

/-! ## statusOverrideFromComments -/

/-- The function statusOverrideFromComments: name, package and found. The indexing
expressions of the source read inside the bounds that the tests before them establish;
`getD` stands for them. -/
def statusOverrideFromComments (commentLines : List String) : String × String × Bool :=
  let index := slicesIndexFunc commentLines
    (fun comment => stringsContains comment istioStatusOveride)
  if index ≠ -1 then
    let statusOverrideLine := commentLines.getD index.toNat ""
    let statusOverridSplit := stringsSplit statusOverrideLine ":"
    if statusOverridSplit.length = 2 then
      let overrideName := statusOverridSplit.getD 1 ""
      (stringsTrimSpace overrideName, "istio.io/api/meta/v1alpha1", true)
    else if statusOverridSplit.length = 3 then
      let overrideName := statusOverridSplit.getD 1 ""
      let overridePackage := statusOverridSplit.getD 2 ""
      (stringsTrimSpace overrideName, stringsTrimSpace overridePackage, true)
    else ("", "", false)
  else ("", "", false)

/-! ## Data model: k8s.io/gengo types and the generator's metadata -/

/-- Go's error values; nil is Option.none. -/
abbrev Error := String

/-- Name of a type in the universe: types.Name. -/
structure types_Name where
  Name : String
  Package : String
deriving DecidableEq

/-- The fields of types.Type that the generator and its template read. -/
structure types_Type where
  Name : types_Name
  CommentLines : List String
  SecondClosestCommentLines : List String
deriving DecidableEq

/-- The interface metadata.KubeType: the results of RawType(), Type() and Tags(). -/
structure KubeType where
  RawType : types_Type
  Type_ : types_Type
  Tags : List String
deriving DecidableEq

/-- The interface metadata.PackageMetadata, as far as GenerateType calls it. -/
structure PackageMetadata where
  KubeTypes : types_Type → List KubeType

/-- The receiver of GenerateType. The import tracker is the list of types added to it. -/
structure typesGenerator where
  source : PackageMetadata
  imports : List types_Type

/-- The parts of generator.Context that GenerateType uses: the namers, each by its Name
method, and the lookup Universe.Type. -/
structure Context where
  Namers : String → Option (types_Type → String)
  Universe : types_Name → types_Type

/-- Values held in the data map of the template and reached from it. -/
inductive Value where
  | nil
  | str (s : String)
  | strs (l : List String)
  | type (t : types_Type)
  | kubeType (k : KubeType)
  | map (m : String → Value)

/-- Assignment m[key] = v on a Go map. -/
def mapSet (m : String → Value) (key : String) (v : Value) : String → Value :=
  fun k => if k = key then v else m k

/-- An io.Writer: the chunks it has accepted, and which write it rejects. -/
structure Writer where
  written : List String
  failure : List String → String → Option Error

/-- Write of io.Writer: a rejected chunk leaves the writer as it was. -/
def Writer.Write (w : Writer) (p : String) : Writer × Option Error :=
  match w.failure w.written p with
  | some e => (w, some e)
  | none => ({ w with written := w.written ++ [p] }, none)

/-! ## text/template, the fragment kubeTypeTemplate uses -/

/-- The space characters of the template lexer. -/
def isSpaceChar (c : Char) : Bool :=
  c = ' ' || c = '\t' || c = '\r' || c = '\n'

/-- A left delimiter is followed by the trim marker and a space. -/
def hasLeftTrimMarker : List Char → Bool
  | '-' :: c :: _ => isSpaceChar c
  | _ => false

/-- Lexer items: literal text, or the body of an action between the delimiters. -/
inductive Item where
  | text (s : String)
  | action (body : String)
  | unclosed

/-- The text item for accumulated characters (in reverse); empty text is not emitted. -/
def textItem (trimLeft trimRight : Bool) (cur : List Char) : List Item :=
  let s := cur.reverse
  let s := if trimLeft then s.dropWhile isSpaceChar else s
  let s := if trimRight then s.rdropWhile isSpaceChar else s
  if s.isEmpty then [] else [Item.text ⟨s⟩]

/-- The action item for an accumulated body (in reverse), and whether a right trim
marker closed it. -/
def actionItem (cur : List Char) : Item × Bool :=
  match cur with
  | '-' :: c :: rest => if isSpaceChar c then (Item.action ⟨rest.reverse⟩, true)
                        else (Item.action ⟨cur.reverse⟩, false)
  | _ => (Item.action ⟨cur.reverse⟩, false)

/-- The lexer. Arguments: rest of input, inside an action, trim the next text on its
left, characters of the current item in reverse, characters of a delimiter still to skip. -/
def lexFrom (left right : List Char) : List Char → Bool → Bool → List Char → Nat → List Item
  | [], false, trimNext, cur, _ => textItem trimNext false cur
  | [], true, _, _, _ => [Item.unclosed]
  | _ :: cs, inside, trimNext, cur, skip + 1 => lexFrom left right cs inside trimNext cur skip
  | c :: cs, false, trimNext, cur, 0 =>
    if left.isPrefixOf (c :: cs) then
      let trim := hasLeftTrimMarker ((c :: cs).drop left.length)
      textItem trimNext trim cur ++
        lexFrom left right cs true false [] (left.length - 1 + (if trim then 2 else 0))
    else lexFrom left right cs false trimNext (c :: cur) 0
  | c :: cs, true, trimNext, cur, 0 =>
    if right.isPrefixOf (c :: cs) then
      (actionItem cur).1 :: lexFrom left right cs false (actionItem cur).2 [] (right.length - 1)
    else lexFrom left right cs true trimNext (c :: cur) 0

/-- A pipeline: a chain of fields from dot, piped through named functions. -/
structure Pipeline where
  fields : List String
  funcs : List String
deriving DecidableEq

/-- The parse tree. -/
inductive Node where
  | text (s : String)
  | action (p : Pipeline)
  | range (p : Pipeline) (body : List Node)

/-- What an action body says. -/
inductive Action where
  | pipe (p : Pipeline)
  | range (p : Pipeline)
  | end_

/-- A field or function name: letters, digits and underscores. -/
def isIdentifier (s : String) : Bool :=
  !s.data.isEmpty && s.data.all (fun c => c.isAlphanum || c = '_')

/-- The characters without leading and trailing template space. -/
def trimSpaces (s : List Char) : List Char :=
  (s.dropWhile isSpaceChar).rdropWhile isSpaceChar

/-- The field chain of a command: "." is dot itself, ".A.B" is field B of field A. -/
def parseFields (s : List Char) : Option (List String) :=
  match s with
  | ['.'] => some []
  | '.' :: rest =>
    let names := splitFrom ['.'] rest [] 0
    if names.all isIdentifier then some names else none
  | _ => none

/-- A pipeline: the field chain, then the functions it is piped through. -/
def parsePipeline (s : List Char) : Option Pipeline :=
  match (splitFrom ['|'] s [] 0).map (fun cmd => trimSpaces cmd.data) with
  | [] => none
  | first :: rest =>
    match parseFields first with
    | none => none
    | some fields =>
      if rest.all (fun f => isIdentifier ⟨f⟩) then some ⟨fields, rest.map String.mk⟩ else none

/-- The body of an action: end, range with its pipeline, or a pipeline to print. -/
def parseAction (body : String) : Option Action :=
  let s := trimSpaces body.data
  if s = "end".data then some Action.end_
  else if "range ".data.isPrefixOf s then (parsePipeline (trimSpaces (s.drop 6))).map Action.range
  else (parsePipeline s).map Action.pipe

/-- Build the tree from the items; the stack holds the enclosing range actions with the
nodes that precede them (in reverse). -/
def parseItems : List Item → List (Pipeline × List Node) → List Node → Option (List Node)
  | [], [], cur => some cur.reverse
  | [], _ :: _, _ => none
  | Item.unclosed :: _, _, _ => none
  | Item.text s :: items, stack, cur => parseItems items stack (Node.text s :: cur)
  | Item.action body :: items, stack, cur =>
    match parseAction body with
    | none => none
    | some (Action.pipe p) => parseItems items stack (Node.action p :: cur)
    | some (Action.range p) => parseItems items ((p, cur) :: stack) []
    | some Action.end_ =>
      match stack with
      | [] => none
      | (p, outer) :: stack => parseItems items stack (Node.range p cur.reverse :: outer)

mutual
/-- The functions a node calls. -/
def Node.funcs : Node → List String
  | Node.text _ => []
  | Node.action p => p.funcs
  | Node.range p body => p.funcs ++ Node.funcsList body
/-- The functions a list of nodes calls. -/
def Node.funcsList : List Node → List String
  | [] => []
  | n :: ns => Node.funcs n ++ Node.funcsList ns
end

/-- Parse of a template: the tree is built and every function it calls must be
defined in the function map. -/
def templateParse (left right : String) (funcMap : String → Option (types_Type → String))
    (format : String) : Except Error (List Node) :=
  match parseItems (lexFrom left.data right.data format.data false false [] 0) [] [] with
  | none => Except.error "template: parse error"
  | some tree =>
    match (Node.funcsList tree).find? (fun f => (funcMap f).isNone) with
    | some f => Except.error ("template: function \"" ++ f ++ "\" not defined")
    | none => Except.ok tree

/-- Field access and niladic method call .name on a value. -/
def evalField (v : Value) (name : String) : Option Value :=
  match v with
  | Value.map m => some (m name)
  | Value.type t =>
    if name = "CommentLines" then some (Value.strs t.CommentLines)
    else if name = "SecondClosestCommentLines" then some (Value.strs t.SecondClosestCommentLines)
    else none
  | Value.kubeType k =>
    if name = "RawType" then some (Value.type k.RawType)
    else if name = "Type" then some (Value.type k.Type_)
    else if name = "Tags" then some (Value.strs k.Tags)
    else none
  | _ => none

/-- A namer applied to the value piped into it. -/
def evalFunc (funcMap : String → Option (types_Type → String)) (v : Value) (name : String) :
    Option Value :=
  match funcMap name, v with
  | some f, Value.type t => some (Value.str (f t))
  | _, _ => none

/-- The value of a pipeline at dot: the fields in turn, then the functions in turn. -/
def evalPipeline (funcMap : String → Option (types_Type → String)) (dot : Value)
    (p : Pipeline) : Option Value :=
  match p.fields.foldlM evalField dot with
  | none => none
  | some v => p.funcs.foldlM (evalFunc funcMap) v

/-- One pass of a range body per element, stopping at the first error. -/
def forEach (elems : List String) (body : String → List String × Option Error) :
    List String × Option Error :=
  match elems with
  | [] => ([], none)
  | e :: es =>
    match body e with
    | (out, some err) => (out, some err)
    | (out, none) => (out ++ (forEach es body).1, (forEach es body).2)

mutual
/-- The chunks a node writes, in order, and the error that stopped it. The template
prints strings only, and ranges over lists of strings only. -/
def execNode (funcMap : String → Option (types_Type → String)) (dot : Value) :
    Node → List String × Option Error
  | Node.text s => ([s], none)
  | Node.action p =>
    match evalPipeline funcMap dot p with
    | some (Value.str s) => ([s], none)
    | _ => ([], some "template: error calling or printing the pipeline")
  | Node.range p body =>
    match evalPipeline funcMap dot p with
    | some (Value.strs l) => forEach l (fun e => execNodes funcMap (Value.str e) body)
    | _ => ([], some "template: range cannot iterate over the pipeline")
/-- The chunks a list of nodes writes, in order, and the error that stopped it. -/
def execNodes (funcMap : String → Option (types_Type → String)) (dot : Value) :
    List Node → List String × Option Error
  | [] => ([], none)
  | n :: ns =>
    match execNode funcMap dot n with
    | (out, some err) => (out, some err)
    | (out, none) => (out ++ (execNodes funcMap dot ns).1, (execNodes funcMap dot ns).2)
end

/-- Write the chunks in order; the first rejected write stops the execution. -/
def writeChunks (w : Writer) : List String → Writer × Option Error
  | [] => (w, none)
  | p :: ps =>
    match w.Write p with
    | (w, some e) => (w, some e)
    | (w, none) => writeChunks w ps

/-- Execute of a parsed template on a writer. -/
def templateExecute (funcMap : String → Option (types_Type → String)) (tree : List Node)
    (w : Writer) (data : Value) : Writer × Option Error :=
  match writeChunks w (execNodes funcMap data tree).1 with
  | (w, some e) => (w, some e)
  | (w, none) => (w, (execNodes funcMap data tree).2)

/-! ## generator.SnippetWriter -/

/-- The snippet writer of gengo: the writer, the delimiters, the namers as template
functions, and the first error met. -/
structure SnippetWriter where
  w : Writer
  left : String
  right : String
  funcMap : String → Option (types_Type → String)
  err : Option Error

/-- NewSnippetWriter: the function map holds the Name method of every namer of the
context. -/
def NewSnippetWriter (w : Writer) (c : Context) (left right : String) : SnippetWriter :=
  { w := w, left := left, right := right, funcMap := c.Namers, err := none }

/-- Do parses and executes the format, unless an error is already recorded; the first
error is kept. -/
def SnippetWriter.Do (s : SnippetWriter) (format : String) (args : Value) : SnippetWriter :=
  if s.err.isSome then s
  else
    match templateParse s.left s.right s.funcMap format with
    | Except.error e => { s with err := some e }
    | Except.ok tree =>
      match templateExecute s.funcMap tree s.w args with
      | (w, err) => { s with w := w, err := err }

/-- Error returns the recorded error. -/
def SnippetWriter.Error (s : SnippetWriter) : Option Error := s.err

/-! ## The generator -/

/-- The constant kubeTypeTemplate, line by line. -/
def kubeTypeTemplate : String :=
  "\n" ++
  "$- range .RawType.SecondClosestCommentLines $\n" ++
  "// $ . $\n" ++
  "$- end $\n" ++
  "$- range .KubeType.Tags $\n" ++
  "// +$ . $\n" ++
  "$- end $\n" ++
  "// +k8s:deepcopy-gen:interfaces=k8s.io/apimachinery/pkg/runtime.Object\n" ++
  "\n" ++
  "$ range .RawType.CommentLines $\n" ++
  "// $ . $\n" ++
  "$- end $\n" ++
  "type $.KubeType.Type|public$ struct \x7b\n" ++
  "\t$.TypeMeta|raw$ `json:\",inline\"`\n" ++
  "\t// +optional\n" ++
  "\t$.ObjectMeta|raw$ `json:\"metadata,omitempty\" protobuf:\"bytes,1,opt,name=metadata\"`\n" ++
  "\n" ++
  "\t// Spec defines the implementation of this definition.\n" ++
  "\t// +optional\n" ++
  "\tSpec $.RawType|raw$ `json:\"spec,omitempty\" protobuf:\"bytes,2,opt,name=spec\"`\n" ++
  "\n" ++
  "\tStatus $.IstioStatus|raw$ `json:\"status,omitempty\"`\n" ++
  "\x7d\n" ++
  "\n" ++
  "// +k8s:deepcopy-gen:interfaces=k8s.io/apimachinery/pkg/runtime.Object\n" ++
  "\n" ++
  "// $.KubeType.Type|public$List is a collection of $.KubeType.Type|publicPlural$.\n" ++
  "type $.KubeType.Type|public$List struct \x7b\n" ++
  "\t$.TypeMeta|raw$ `json:\",inline\"`\n" ++
  "\t// +optional\n" ++
  "\t$.ListMeta|raw$ `json:\"metadata,omitempty\" protobuf:\"bytes,1,opt,name=metadata\"`\n" ++
  "\tItems           []*$.KubeType.Type|raw$ `json:\"items\" protobuf:\"bytes,2,rep,name=items\"`\n" ++
  "\x7d\n"

/-- One iteration of the loop of GenerateType over the kube types. In Go the statement
localM := m copies the reference to the map, not the map: localM and m are the same map,
so the loop carries the one map m from iteration to iteration. -/
def generateStep (c : Context) (st : typesGenerator × (String → Value) × SnippetWriter)
    (kubeType : KubeType) : typesGenerator × (String → Value) × SnippetWriter :=
  let g := st.1
  let m := st.2.1
  let sw := st.2.2
  let localM := m
  let localM :=
    match statusOverrideFromComments kubeType.RawType.CommentLines with
    | (name, packageName, true) =>
      mapSet localM "IstioStatus" (Value.type (c.Universe ⟨name, packageName⟩))
    | (_, _, false) => localM
  let g := { g with imports := g.imports ++ [kubeType.Type_] }
  let localM := mapSet localM "KubeType" (Value.kubeType kubeType)
  (g, localM, sw.Do kubeTypeTemplate (Value.map localM))

/-- The map m that GenerateType builds before the loop. -/
def initialMap (c : Context) (t : types_Type) : String → Value :=
  mapSet (mapSet (mapSet (mapSet (mapSet (mapSet (fun _ => Value.nil)
    "KubeType" Value.nil)
    "RawType" (Value.type t))
    "TypeMeta" (Value.type (c.Universe ⟨"TypeMeta", "k8s.io/apimachinery/pkg/apis/meta/v1"⟩)))
    "ObjectMeta" (Value.type (c.Universe ⟨"ObjectMeta", "k8s.io/apimachinery/pkg/apis/meta/v1"⟩)))
    "ListMeta" (Value.type (c.Universe ⟨"ListMeta", "k8s.io/apimachinery/pkg/apis/meta/v1"⟩)))
    "IstioStatus" (Value.type (c.Universe ⟨"IstioStatus", "istio.io/api/meta/v1alpha1"⟩))

/-- GenerateType: the generator and the writer after the call, and the error returned. -/
def GenerateType (g : typesGenerator) (c : Context) (t : types_Type) (w : Writer) :
    typesGenerator × Writer × Option Error :=
  let kubeTypes := g.source.KubeTypes t
  let sw := NewSnippetWriter w c "$" "$"
  let m := initialMap c t
  let st := kubeTypes.foldl (generateStep c) (g, m, sw)
  (st.1, st.2.2.w, st.2.2.Error)

/-- The parse tree of kubeTypeTemplate. -/
def kubeTypeTree : List Node :=
  [ Node.range ⟨["RawType", "SecondClosestCommentLines"], []⟩
      [Node.text "\n// ", Node.action ⟨[], []⟩],
    Node.range ⟨["KubeType", "Tags"], []⟩ [Node.text "\n// +", Node.action ⟨[], []⟩],
    Node.text ("\n" ++ "// +k8s:deepcopy-gen:interfaces=k8s.io/apimachinery/pkg/runtime.Object\n\n"),
    Node.range ⟨["RawType", "CommentLines"], []⟩ [Node.text "\n// ", Node.action ⟨[], []⟩],
    Node.text ("\n" ++ "type "),
    Node.action ⟨["KubeType", "Type"], ["public"]⟩,
    Node.text " struct \x7b\n\t",
    Node.action ⟨["TypeMeta"], ["raw"]⟩,
    Node.text " `json:\",inline\"`\n\t// +optional\n\t",
    Node.action ⟨["ObjectMeta"], ["raw"]⟩,
    Node.text (" `json:\"metadata,omitempty\" protobuf:\"bytes,1,opt,name=metadata\"`\n\n" ++
      "\t// Spec defines the implementation of this definition.\n\t// +optional\n\tSpec "),
    Node.action ⟨["RawType"], ["raw"]⟩,
    Node.text " `json:\"spec,omitempty\" protobuf:\"bytes,2,opt,name=spec\"`\n\n\tStatus ",
    Node.action ⟨["IstioStatus"], ["raw"]⟩,
    Node.text (" `json:\"status,omitempty\"`\n\x7d\n" ++ "\n" ++
      "// +k8s:deepcopy-gen:interfaces=k8s.io/apimachinery/pkg/runtime.Object\n\n" ++ "// "),
    Node.action ⟨["KubeType", "Type"], ["public"]⟩,
    Node.text "List is a collection of ",
    Node.action ⟨["KubeType", "Type"], ["publicPlural"]⟩,
    Node.text ".\ntype ",
    Node.action ⟨["KubeType", "Type"], ["public"]⟩,
    Node.text "List struct \x7b\n\t",
    Node.action ⟨["TypeMeta"], ["raw"]⟩,
    Node.text " `json:\",inline\"`\n\t// +optional\n\t",
    Node.action ⟨["ListMeta"], ["raw"]⟩,
    Node.text (" `json:\"metadata,omitempty\" protobuf:\"bytes,1,opt,name=metadata\"`\n" ++
      "\tItems           []*"),
    Node.action ⟨["KubeType", "Type"], ["raw"]⟩,
    Node.text " `json:\"items\" protobuf:\"bytes,2,rep,name=items\"`\n\x7d\n" ]

/-- The state of the loop of GenerateType after the kube types in processed, when the
writer w accepts every write: no error is recorded, the snippet writer is the one
GenerateType made, and the map holds the raw type t, the three metadata types and a
status type, which is IstioStatus as long as no processed kube type carried an override. -/
def LoopState (c : Context) (t : types_Type) (w : Writer) (processed : List KubeType)
    (st : typesGenerator × (String → Value) × SnippetWriter) : Prop :=
  st.2.2.funcMap = c.Namers ∧ st.2.2.left = "$" ∧ st.2.2.right = "$" ∧ st.2.2.err = none ∧
  st.2.2.w.failure = w.failure ∧
  st.2.1 "RawType" = Value.type t ∧
  st.2.1 "TypeMeta" =
    Value.type (c.Universe ⟨"TypeMeta", "k8s.io/apimachinery/pkg/apis/meta/v1"⟩) ∧
  st.2.1 "ObjectMeta" =
    Value.type (c.Universe ⟨"ObjectMeta", "k8s.io/apimachinery/pkg/apis/meta/v1"⟩) ∧
  st.2.1 "ListMeta" =
    Value.type (c.Universe ⟨"ListMeta", "k8s.io/apimachinery/pkg/apis/meta/v1"⟩) ∧
  ∃ status, st.2.1 "IstioStatus" = Value.type status ∧
    ((∀ k ∈ processed, (statusOverrideFromComments k.RawType.CommentLines).2.2 = false) →
      status = c.Universe ⟨"IstioStatus", "istio.io/api/meta/v1alpha1"⟩)

/-! ## Concrete inputs -/

/-- A namer for public: the name of the type. -/
def publicNamer (t : types_Type) : String := t.Name.Name

/-- A namer for raw: the package and the name of the type. -/
def rawNamer (t : types_Type) : String := t.Name.Package ++ "." ++ t.Name.Name

/-- A namer for publicPlural: the name of the type with an s. -/
def publicPluralNamer (t : types_Type) : String := t.Name.Name ++ "s"

/-- A context with the three namers above, whose universe holds a bare type for every
name. -/
def exampleContext : Context :=
  { Namers := fun n =>
      if n = "public" then some publicNamer
      else if n = "raw" then some rawNamer
      else if n = "publicPlural" then some publicPluralNamer
      else none
    Universe := fun n => ⟨n, [], []⟩ }

/-- A raw type whose comment carries a status override. -/
def overriddenRawType : types_Type :=
  ⟨⟨"ServiceEntry", "istio.io/api/networking/v1alpha3"⟩, ["istiostatus-override:Foo"], []⟩

/-- A raw type without comments. -/
def plainRawType : types_Type :=
  ⟨⟨"Gateway", "istio.io/api/networking/v1alpha3"⟩, [], []⟩

/-- A kube type for the raw type with the override. -/
def overriddenKubeType : KubeType :=
  ⟨overriddenRawType, ⟨⟨"ServiceEntry", "istio.io/client-go/pkg/apis/networking/v1alpha3"⟩, [], []⟩,
    []⟩

/-- A kube type for the raw type without comments. -/
def plainKubeType : KubeType :=
  ⟨plainRawType, ⟨⟨"Gateway", "istio.io/client-go/pkg/apis/networking/v1alpha3"⟩, [], []⟩, []⟩

/-- A generator whose source answers every raw type with the two kube types above. -/
def exampleGenerator : typesGenerator :=
  ⟨⟨fun _ => [overriddenKubeType, plainKubeType]⟩, []⟩

/-- A writer that accepts every write. -/
def bufferWriter : Writer := ⟨[], fun _ _ => none⟩

/-- A writer that rejects every write. -/
def closedWriter : Writer := ⟨[], fun _ _ => some "write on closed writer"⟩

/-! # Theorems -/

/-! ## strings.Contains -/

theorem containsFrom_iff (substr s : List Char) :
    containsFrom substr s = true ↔ substr <:+: s := by
  induction s with
  | nil =>
    cases substr <;> simp [containsFrom, List.isPrefixOf]
  | cons c cs ih =>
    simp only [containsFrom, Bool.or_eq_true, ih, List.infix_cons_iff, List.isPrefixOf_iff_prefix]

theorem stringsContains_iff (s substr : String) :
    stringsContains s substr = true ↔ ∃ p q : String, s = p ++ substr ++ q := by
  unfold stringsContains
  rw [containsFrom_iff]
  constructor
  · rintro ⟨p, q, h⟩
    refine ⟨⟨p⟩, ⟨q⟩, ?_⟩
    apply String.ext
    simp [h.symm]
  · rintro ⟨p, q, rfl⟩
    exact ⟨p.data, q.data, by simp⟩

/-! ## slices.IndexFunc -/

theorem indexFrom_none {α : Type} (f : α → Bool) (s : List α) (i : Nat)
    (h : ∀ x ∈ s, f x = false) : indexFrom f s i = -1 := by
  induction s generalizing i with
  | nil => rfl
  | cons x xs ih =>
    have hx : f x = false := h x (List.mem_cons_self _ _)
    simp only [indexFrom, hx]
    exact ih _ (fun y hy => h y (List.mem_cons_of_mem _ hy))

theorem indexFrom_first {α : Type} (f : α → Bool) (pre : List α) (x : α) (rest : List α)
    (i : Nat) (hpre : ∀ y ∈ pre, f y = false) (hx : f x = true) :
    indexFrom f (pre ++ x :: rest) i = ((i + pre.length : Nat) : Int) := by
  induction pre generalizing i with
  | nil => simp [indexFrom, hx]
  | cons y ys ih =>
    have hy : f y = false := hpre y (List.mem_cons_self _ _)
    have e : indexFrom f ((y :: ys) ++ x :: rest) i = indexFrom f (ys ++ x :: rest) (i + 1) := by
      simp [indexFrom, hy]
    rw [e, ih (i + 1) (fun z hz => hpre z (List.mem_cons_of_mem _ hz))]
    simp only [List.length_cons]
    congr 1
    omega

theorem exists_first {α : Type} (f : α → Bool) (s : List α) :
    (∀ x ∈ s, f x = false) ∨
    ∃ pre x rest, s = pre ++ x :: rest ∧ (∀ y ∈ pre, f y = false) ∧ f x = true := by
  induction s with
  | nil => left; simp
  | cons a as ih =>
    cases ha : f a with
    | true => right; exact ⟨[], a, as, rfl, by simp, ha⟩
    | false =>
      rcases ih with h | ⟨pre, x, rest, rfl, hpre, hx⟩
      · left
        intro y hy
        rcases List.mem_cons.mp hy with rfl | hy
        · exact ha
        · exact h y hy
      · right
        refine ⟨a :: pre, x, rest, rfl, ?_, hx⟩
        intro y hy
        rcases List.mem_cons.mp hy with rfl | hy
        · exact ha
        · exact hpre y hy

/-! ## strings.Split on ":" -/

theorem splitFrom_colon_cons (c : Char) (cs cur : List Char) :
    splitFrom [':'] (c :: cs) cur 0 =
      if c = ':' then ⟨cur.reverse⟩ :: splitFrom [':'] cs [] 0
      else splitFrom [':'] cs (c :: cur) 0 := by
  by_cases h : c = ':'
  · subst h; simp [splitFrom, List.isPrefixOf]
  · have h2 : ¬ (':' = c) := fun e => h e.symm
    simp [splitFrom, List.isPrefixOf, h, h2]

theorem splitFrom_colon_free (a r cur : List Char) (ha : ':' ∉ a) :
    splitFrom [':'] (a ++ r) cur 0 = splitFrom [':'] r (a.reverse ++ cur) 0 := by
  induction a generalizing cur with
  | nil => simp
  | cons c cs ih =>
    have hc : c ≠ ':' := fun e => ha (by simp [e])
    have hcs : ':' ∉ cs := fun e => ha (List.mem_cons_of_mem _ e)
    rw [List.cons_append, splitFrom_colon_cons, if_neg hc, ih _ hcs]
    simp

theorem splitFrom_length (s cur : List Char) :
    (splitFrom [':'] s cur 0).length = s.count ':' + 1 := by
  induction s generalizing cur with
  | nil => simp [splitFrom]
  | cons c cs ih =>
    rw [splitFrom_colon_cons]
    by_cases h : c = ':'
    · subst h; simp [ih]
    · have h2 : ¬ (':' = c) := fun e => h e.symm
      simp [h, ih, List.count_cons, h2]

theorem splitFrom_parts (s cur : List Char) (hcur : ':' ∉ cur) :
    ∀ p ∈ splitFrom [':'] s cur 0, ':' ∉ p.data := by
  induction s generalizing cur with
  | nil =>
    intro p hp
    simp only [splitFrom, List.mem_singleton] at hp
    subst hp
    simpa using hcur
  | cons c cs ih =>
    intro p hp
    rw [splitFrom_colon_cons] at hp
    by_cases h : c = ':'
    · rw [if_pos h] at hp
      rcases List.mem_cons.mp hp with rfl | hp
      · simpa using hcur
      · exact ih [] (by simp) p hp
    · rw [if_neg h] at hp
      refine ih (c :: cur) ?_ p hp
      intro hm
      rcases List.mem_cons.mp hm with e | e
      · exact h e.symm
      · exact hcur e

theorem stringsSplit_colon (s : String) :
    stringsSplit s ":" = splitFrom [':'] s.data [] 0 := by
  simp [stringsSplit]

theorem stringsSplit_length (s : String) :
    (stringsSplit s ":").length = s.data.count ':' + 1 := by
  rw [stringsSplit_colon, splitFrom_length]

theorem stringsSplit_one (a : String) (ha : ':' ∉ a.data) :
    stringsSplit a ":" = [a] := by
  rw [stringsSplit_colon]
  have := splitFrom_colon_free a.data [] [] ha
  simp only [List.append_nil] at this
  rw [this]
  simp [splitFrom]

theorem stringsSplit_cut (a b : String) (ha : ':' ∉ a.data) :
    stringsSplit (a ++ ":" ++ b) ":" = a :: stringsSplit b ":" := by
  rw [stringsSplit_colon, stringsSplit_colon]
  have e : (a ++ ":" ++ b).data = a.data ++ (':' :: b.data) := by simp
  rw [e, splitFrom_colon_free _ _ _ ha, splitFrom_colon_cons]
  simp

/-! ## strings.TrimSpace -/

theorem stringsTrimSpace_mem (s : String) (c : Char) (h : c ∈ (stringsTrimSpace s).data) :
    c ∈ s.data := by
  unfold stringsTrimSpace at h
  have h1 := (List.rdropWhile_prefix unicodeIsSpace (l := s.data.dropWhile unicodeIsSpace)).subset h
  exact (List.dropWhile_suffix unicodeIsSpace).subset h1

theorem stringsTrimSpace_head (s : String) (c : Char)
    (h : (stringsTrimSpace s).data.head? = some c) : unicodeIsSpace c = false := by
  unfold stringsTrimSpace at h
  simp only at h
  obtain ⟨t, ht⟩ := List.rdropWhile_prefix unicodeIsSpace (l := s.data.dropWhile unicodeIsSpace)
  have hd := List.head?_dropWhile_not unicodeIsSpace s.data
  rw [← ht] at hd
  cases hr : List.rdropWhile unicodeIsSpace (List.dropWhile unicodeIsSpace s.data) with
  | nil => rw [hr] at h; simp at h
  | cons a as =>
    rw [hr] at h hd
    simp only [List.head?_cons, Option.some.injEq] at h
    subst h
    simpa using hd

theorem stringsTrimSpace_last (s : String) (c : Char)
    (h : (stringsTrimSpace s).data.getLast? = some c) : unicodeIsSpace c = false := by
  unfold stringsTrimSpace at h
  simp only at h
  have hne : List.rdropWhile unicodeIsSpace (List.dropWhile unicodeIsSpace s.data) ≠ [] := by
    intro e
    rw [e] at h
    simp at h
  have hl := List.rdropWhile_last_not unicodeIsSpace (List.dropWhile unicodeIsSpace s.data) hne
  rw [List.getLast?_eq_getLast _ hne] at h
  simp only [Option.some.injEq] at h
  rw [h] at hl
  simpa using hl

/-! ## statusOverrideFromComments -/

theorem statusOverride_no_match (commentLines : List String)
    (h : ∀ l ∈ commentLines, stringsContains l istioStatusOveride = false) :
    statusOverrideFromComments commentLines = ("", "", false) := by
  unfold statusOverrideFromComments slicesIndexFunc
  rw [indexFrom_none _ _ _ h]
  simp

theorem statusOverride_first (pre rest : List String) (line : String)
    (hpre : ∀ l ∈ pre, stringsContains l istioStatusOveride = false)
    (hline : stringsContains line istioStatusOveride = true) :
    statusOverrideFromComments (pre ++ line :: rest) =
      if (stringsSplit line ":").length = 2 then
        (stringsTrimSpace ((stringsSplit line ":").getD 1 ""), "istio.io/api/meta/v1alpha1", true)
      else if (stringsSplit line ":").length = 3 then
        (stringsTrimSpace ((stringsSplit line ":").getD 1 ""),
          stringsTrimSpace ((stringsSplit line ":").getD 2 ""), true)
      else ("", "", false) := by
  unfold statusOverrideFromComments slicesIndexFunc
  rw [indexFrom_first (fun comment => stringsContains comment istioStatusOveride) pre line rest 0
    hpre hline]
  have hne : ¬ (((pre.length : Nat) : Int) = -1) := by omega
  have hget : (pre ++ line :: rest).getD pre.length "" = line := by
    rw [List.getD_append_right _ _ _ _ (le_refl _)]
    simp
  simp only [ne_eq, Int.toNat_ofNat, Nat.zero_add, hget]
  rw [if_pos hne]

theorem directive_colon_free : ':' ∉ ("istiostatus-override" : String).data := by decide

theorem directive_split : istioStatusOveride = "istiostatus-override" ++ ":" := by decide

theorem contains_directive (P R : String) :
    stringsContains (P ++ istioStatusOveride ++ R) istioStatusOveride = true :=
  (stringsContains_iff _ _).mpr ⟨P, R, rfl⟩

theorem split_name_only (P N : String) (hP : ':' ∉ P.data) (hN : ':' ∉ N.data) :
    stringsSplit (P ++ istioStatusOveride ++ N) ":" = [P ++ "istiostatus-override", N] := by
  have e : P ++ istioStatusOveride ++ N = (P ++ "istiostatus-override") ++ ":" ++ N := by
    rw [directive_split]; simp [String.append_assoc]
  have hc : ':' ∉ (P ++ "istiostatus-override").data := by
    simp only [String.data_append, List.mem_append, not_or]
    exact ⟨hP, directive_colon_free⟩
  rw [e, stringsSplit_cut _ _ hc, stringsSplit_one _ hN]

theorem split_name_package (P N K : String) (hP : ':' ∉ P.data) (hN : ':' ∉ N.data)
    (hK : ':' ∉ K.data) :
    stringsSplit (P ++ istioStatusOveride ++ N ++ ":" ++ K) ":" =
      [P ++ "istiostatus-override", N, K] := by
  have e : P ++ istioStatusOveride ++ N ++ ":" ++ K =
      (P ++ "istiostatus-override") ++ ":" ++ (N ++ ":" ++ K) := by
    rw [directive_split]; simp [String.append_assoc]
  have hc : ':' ∉ (P ++ "istiostatus-override").data := by
    simp only [String.data_append, List.mem_append, not_or]
    exact ⟨hP, directive_colon_free⟩
  rw [e, stringsSplit_cut _ _ hc, stringsSplit_cut _ _ hN, stringsSplit_one _ hK]

/-- C3, absence: when no comment line contains "istiostatus-override:", and so for the
empty list, statusOverrideFromComments returns ("", "", false). -/
theorem statusOverride_absent (commentLines : List String)
    (h : ∀ l ∈ commentLines, stringsContains l istioStatusOveride = false) :
    statusOverrideFromComments commentLines = ("", "", false) := by
  have hindex : slicesIndexFunc commentLines
      (fun comment => stringsContains comment istioStatusOveride) = -1 :=
    indexFrom_none _ _ 0 h
  unfold statusOverrideFromComments
  rw [hindex]
  simp

theorem statusOverride_absent_witness :
    statusOverrideFromComments ["+kubetype-gen", "+genclient"] = ("", "", false) :=
  statusOverride_absent ["+kubetype-gen", "+genclient"] (by decide)

/-- C1, the name-only directive: when the first comment line that contains
"istiostatus-override:" is P ++ "istiostatus-override:" ++ N with no colon in P and none
in N, statusOverrideFromComments returns N without its surrounding white space, the
package istio.io/api/meta/v1alpha1, and true. -/
theorem statusOverride_name_only (pre rest : List String) (P N : String)
    (hpre : ∀ l ∈ pre, stringsContains l istioStatusOveride = false)
    (hP : ':' ∉ P.data) (hN : ':' ∉ N.data) :
    statusOverrideFromComments (pre ++ (P ++ istioStatusOveride ++ N) :: rest) =
      (stringsTrimSpace N, "istio.io/api/meta/v1alpha1", true) := by
  rw [statusOverride_first pre rest _ hpre (contains_directive P N), split_name_only P N hP hN]
  simp

theorem statusOverride_name_only_witness :
    statusOverrideFromComments ["istiostatus-override:Foo"] =
      ("Foo", "istio.io/api/meta/v1alpha1", true) :=
  statusOverride_name_only [] [] "" "Foo" (by simp) (by decide) (by decide)

/-- C2, the directive with name and package: when the first comment line that contains
"istiostatus-override:" is P ++ "istiostatus-override:" ++ N ++ ":" ++ K with no colon in
P, N and K, statusOverrideFromComments returns N and K, each without its surrounding white
space, and true. -/
theorem statusOverride_name_package (pre rest : List String) (P N K : String)
    (hpre : ∀ l ∈ pre, stringsContains l istioStatusOveride = false)
    (hP : ':' ∉ P.data) (hN : ':' ∉ N.data) (hK : ':' ∉ K.data) :
    statusOverrideFromComments (pre ++ (P ++ istioStatusOveride ++ N ++ ":" ++ K) :: rest) =
      (stringsTrimSpace N, stringsTrimSpace K, true) := by
  have hc : stringsContains (P ++ istioStatusOveride ++ N ++ ":" ++ K) istioStatusOveride = true :=
    (stringsContains_iff _ _).mpr ⟨P, N ++ ":" ++ K, by simp [String.append_assoc]⟩
  rw [statusOverride_first pre rest _ hpre hc, split_name_package P N K hP hN hK]
  simp

theorem statusOverride_name_package_witness :
    statusOverrideFromComments ["istiostatus-override:Foo:bar.io/x"] = ("Foo", "bar.io/x", true) :=
  statusOverride_name_package [] [] "" "Foo" "bar.io/x" (by simp) (by decide) (by decide)
    (by decide)

theorem contains_directive_count (line : String)
    (h : stringsContains line istioStatusOveride = true) : 1 ≤ line.data.count ':' := by
  obtain ⟨p, q, rfl⟩ := (stringsContains_iff _ _).mp h
  apply List.count_pos_iff.mpr
  simp [istioStatusOveride]

theorem stringsSplit_getD_colon_free (line : String) (i : Nat) :
    ':' ∉ ((stringsSplit line ":").getD i "").data := by
  by_cases hi : i < (stringsSplit line ":").length
  · rw [List.getD_eq_getElem _ _ hi]
    have hm : (stringsSplit line ":")[i] ∈ stringsSplit line ":" := List.getElem_mem _
    have hall : ∀ p ∈ stringsSplit line ":", ':' ∉ p.data := by
      rw [stringsSplit_colon]
      exact splitFrom_parts _ _ (by simp)
    exact hall _ hm
  · rw [List.getD_eq_default _ _ (not_lt.mp hi)]
    simp

theorem stringsTrimSpace_colon_free (s : String) (h : ':' ∉ s.data) :
    ':' ∉ (stringsTrimSpace s).data :=
  fun hm => h (stringsTrimSpace_mem s ':' hm)

/-- C9, the first matching line decides: found is true exactly when some line contains
"istiostatus-override:" and the first such line has at most two colons; and when the first
such line has three or more colons the result is ("", "", false), whatever the later
lines are. -/
theorem statusOverride_found_iff (commentLines : List String) :
    ((statusOverrideFromComments commentLines).2.2 = true ↔
      ∃ pre line rest, commentLines = pre ++ line :: rest ∧
        (∀ l ∈ pre, stringsContains l istioStatusOveride = false) ∧
        stringsContains line istioStatusOveride = true ∧ line.data.count ':' ≤ 2) ∧
    (∀ pre line rest, commentLines = pre ++ line :: rest →
        (∀ l ∈ pre, stringsContains l istioStatusOveride = false) →
        stringsContains line istioStatusOveride = true → 3 ≤ line.data.count ':' →
        statusOverrideFromComments commentLines = ("", "", false)) := by
  refine ⟨⟨?_, ?_⟩, ?_⟩
  · intro hf
    rcases exists_first (fun c => stringsContains c istioStatusOveride) commentLines with
      h | ⟨pre, line, rest, rfl, hpre, hline⟩
    · rw [statusOverride_no_match _ h] at hf
      simp at hf
    · refine ⟨pre, line, rest, rfl, hpre, hline, ?_⟩
      rw [statusOverride_first pre rest line hpre hline] at hf
      have hlen := stringsSplit_length line
      split_ifs at hf with h2 h3
      · omega
      · omega
  · rintro ⟨pre, line, rest, rfl, hpre, hline, hcount⟩
    rw [statusOverride_first pre rest line hpre hline]
    have hlen := stringsSplit_length line
    have h1 := contains_directive_count line hline
    split_ifs with h2 h3
    · rfl
    · rfl
    · omega
  · rintro pre line rest rfl hpre hline hcount
    rw [statusOverride_first pre rest line hpre hline]
    have hlen := stringsSplit_length line
    split_ifs with h2 h3
    · omega
    · omega
    · rfl

/-- C10, the shape of the results: the returned name and package contain no colon and
neither starts nor ends with white space; both are empty when found is false; and when the
first matching line has exactly one colon and found is true, the package is
istio.io/api/meta/v1alpha1. -/
theorem statusOverride_shape (commentLines : List String) :
    ':' ∉ (statusOverrideFromComments commentLines).1.data ∧
    ':' ∉ (statusOverrideFromComments commentLines).2.1.data ∧
    (∀ c, (statusOverrideFromComments commentLines).1.data.head? = some c →
      unicodeIsSpace c = false) ∧
    (∀ c, (statusOverrideFromComments commentLines).1.data.getLast? = some c →
      unicodeIsSpace c = false) ∧
    (∀ c, (statusOverrideFromComments commentLines).2.1.data.head? = some c →
      unicodeIsSpace c = false) ∧
    (∀ c, (statusOverrideFromComments commentLines).2.1.data.getLast? = some c →
      unicodeIsSpace c = false) ∧
    ((statusOverrideFromComments commentLines).2.2 = false →
      (statusOverrideFromComments commentLines).1 = "" ∧
      (statusOverrideFromComments commentLines).2.1 = "") ∧
    (∀ pre line rest, commentLines = pre ++ line :: rest →
      (∀ l ∈ pre, stringsContains l istioStatusOveride = false) →
      stringsContains line istioStatusOveride = true → line.data.count ':' = 1 →
      (statusOverrideFromComments commentLines).2.2 = true →
      (statusOverrideFromComments commentLines).2.1 = "istio.io/api/meta/v1alpha1") := by
  have hlast : ∀ c : Char,
      ("istio.io/api/meta/v1alpha1" : String).data.getLast? = some c → unicodeIsSpace c = false := by
    intro c hc
    have e : ("istio.io/api/meta/v1alpha1" : String).data.getLast? = some '1' := by decide
    rw [e] at hc
    cases hc
    decide
  have hhead : ∀ c : Char,
      ("istio.io/api/meta/v1alpha1" : String).data.head? = some c → unicodeIsSpace c = false := by
    intro c hc
    have e : ("istio.io/api/meta/v1alpha1" : String).data.head? = some 'i' := by decide
    rw [e] at hc
    cases hc
    decide
  have hdef : ':' ∉ ("istio.io/api/meta/v1alpha1" : String).data := by decide
  rcases exists_first (fun c => stringsContains c istioStatusOveride) commentLines with
    h | ⟨pre, line, rest, rfl, hpre, hline⟩
  · rw [statusOverride_no_match _ h]
    refine ⟨by simp, by simp, by simp, by simp, by simp, by simp, by simp, ?_⟩
    intro pre line rest _ _ _ _ hf
    simp at hf
  · have hlen := stringsSplit_length line
    have key := statusOverride_first pre rest line hpre hline
    have last : ∀ pre' line' rest', pre ++ line :: rest = pre' ++ line' :: rest' →
        (∀ l ∈ pre', stringsContains l istioStatusOveride = false) →
        stringsContains line' istioStatusOveride = true → line'.data.count ':' = 1 →
        (stringsSplit line ":").length = 2 := by
      intro pre' line' rest' e hpre' hline' hcount
      have e1 := indexFrom_first (fun c => stringsContains c istioStatusOveride) pre line rest 0
        hpre hline
      have e2 := indexFrom_first (fun c => stringsContains c istioStatusOveride) pre' line' rest' 0
        hpre' hline'
      rw [← e, e1] at e2
      have hl : pre.length = pre'.length := by omega
      have hp := List.append_inj e hl
      have hline_eq : line = line' := by
        have := hp.2
        simp only [List.cons.injEq] at this
        exact this.1
      rw [hline_eq, stringsSplit_length, hcount]
    rw [key]
    split_ifs with h2 h3
    · refine ⟨stringsTrimSpace_colon_free _ (stringsSplit_getD_colon_free _ _), hdef,
        stringsTrimSpace_head _, stringsTrimSpace_last _, hhead, hlast, by simp, ?_⟩
      intros; rfl
    · refine ⟨stringsTrimSpace_colon_free _ (stringsSplit_getD_colon_free _ _),
        stringsTrimSpace_colon_free _ (stringsSplit_getD_colon_free _ _),
        stringsTrimSpace_head _, stringsTrimSpace_last _, stringsTrimSpace_head _,
        stringsTrimSpace_last _, by simp, ?_⟩
      intro pre' line' rest' e hpre' hline' hcount _
      exact absurd (last pre' line' rest' e hpre' hline' hcount) h2
    · refine ⟨by simp, by simp, by simp, by simp, by simp, by simp, by simp, ?_⟩
      intro pre' line' rest' e hpre' hline' hcount hf
      simp at hf

/-- C4, text before the directive: on the single line "see: istiostatus-override:Foo",
which is "see: " ++ "istiostatus-override:" ++ "Foo" with no colon in "Foo", the function
reports found but returns the directive keyword as the name and "Foo" as the package, not
the name "Foo" with the package istio.io/api/meta/v1alpha1. -/
theorem statusOverride_text_before_directive :
    "see: istiostatus-override:Foo" = "see: " ++ istioStatusOveride ++ "Foo" ∧
    ':' ∉ ("Foo" : String).data ∧
    statusOverrideFromComments ["see: istiostatus-override:Foo"] =
      ("istiostatus-override", "Foo", true) ∧
    statusOverrideFromComments ["see: istiostatus-override:Foo"] ≠
      (stringsTrimSpace "Foo", "istio.io/api/meta/v1alpha1", true) := by
  decide

theorem statusOverride_found_iff_witness :
    statusOverrideFromComments ["note: istiostatus-override:Foo:bar.io/x",
      "istiostatus-override:Foo"] = ("", "", false) :=
  (statusOverride_found_iff ["note: istiostatus-override:Foo:bar.io/x",
    "istiostatus-override:Foo"]).2 [] "note: istiostatus-override:Foo:bar.io/x"
    ["istiostatus-override:Foo"] rfl (by simp) (by decide) (by decide)

theorem statusOverride_shape_witness :
    (statusOverrideFromComments ["istiostatus-override: Foo "]).2.1 =
      "istio.io/api/meta/v1alpha1" :=
  (statusOverride_shape ["istiostatus-override: Foo "]).2.2.2.2.2.2.2 []
    "istiostatus-override: Foo " [] rfl (by simp) (by decide) (by decide) (by decide)

/-! ## kubeTypeTemplate: its parse tree and its execution -/

set_option maxRecDepth 100000 in
theorem kubeTypeTemplate_items :
    parseItems (lexFrom "$".data "$".data kubeTypeTemplate.data false false [] 0) [] [] =
      some kubeTypeTree := by
  rfl

theorem forEach_ok (l : List String) (f : String → List String) :
    forEach l (fun e => (f e, none)) = (l.flatMap f, none) := by
  induction l with
  | nil => rfl
  | cons e es ih => simp only [forEach, ih, List.flatMap_cons]

theorem kubeTypeTree_funcs :
    Node.funcsList kubeTypeTree =
      ["public", "raw", "raw", "raw", "raw", "public", "publicPlural", "public", "raw", "raw",
        "raw"] := by
  rfl

theorem templateParse_kubeTypeTemplate (funcMap : String → Option (types_Type → String))
    (pub raw plural : types_Type → String)
    (hpub : funcMap "public" = some pub) (hraw : funcMap "raw" = some raw)
    (hplural : funcMap "publicPlural" = some plural) :
    templateParse "$" "$" funcMap kubeTypeTemplate = Except.ok kubeTypeTree := by
  unfold templateParse
  rw [kubeTypeTemplate_items]
  simp [kubeTypeTree_funcs, hpub, hraw, hplural]

theorem execNodes_kubeTypeTree (funcMap : String → Option (types_Type → String))
    (pub raw plural : types_Type → String) (m : String → Value) (kt : KubeType)
    (t tm om lm st : types_Type)
    (hpub : funcMap "public" = some pub) (hraw : funcMap "raw" = some raw)
    (hplural : funcMap "publicPlural" = some plural)
    (hk : m "KubeType" = Value.kubeType kt) (ht : m "RawType" = Value.type t)
    (htm : m "TypeMeta" = Value.type tm) (hom : m "ObjectMeta" = Value.type om)
    (hlm : m "ListMeta" = Value.type lm) (hst : m "IstioStatus" = Value.type st) :
    execNodes funcMap (Value.map m) kubeTypeTree =
      (t.SecondClosestCommentLines.flatMap (fun e => ["\n// ", e]) ++
        (kt.Tags.flatMap (fun e => ["\n// +", e]) ++
        ("\n" ++ "// +k8s:deepcopy-gen:interfaces=k8s.io/apimachinery/pkg/runtime.Object\n\n") ::
        (t.CommentLines.flatMap (fun e => ["\n// ", e]) ++
        ["\n" ++ "type ", pub kt.Type_, " struct \x7b\n\t", raw tm,
          " `json:\",inline\"`\n\t// +optional\n\t", raw om,
          " `json:\"metadata,omitempty\" protobuf:\"bytes,1,opt,name=metadata\"`\n\n" ++
            "\t// Spec defines the implementation of this definition.\n\t// +optional\n\tSpec ",
          raw t, " `json:\"spec,omitempty\" protobuf:\"bytes,2,opt,name=spec\"`\n\n\tStatus ",
          raw st,
          " `json:\"status,omitempty\"`\n\x7d\n" ++ "\n" ++
            "// +k8s:deepcopy-gen:interfaces=k8s.io/apimachinery/pkg/runtime.Object\n\n" ++ "// ",
          pub kt.Type_, "List is a collection of ", plural kt.Type_, ".\ntype ", pub kt.Type_,
          "List struct \x7b\n\t", raw tm, " `json:\",inline\"`\n\t// +optional\n\t", raw lm,
          " `json:\"metadata,omitempty\" protobuf:\"bytes,1,opt,name=metadata\"`\n" ++
            "\tItems           []*",
          raw kt.Type_, " `json:\"items\" protobuf:\"bytes,2,rep,name=items\"`\n\x7d\n"])),
       none) := by
  simp [kubeTypeTree, execNodes, execNode, evalPipeline, evalField, evalFunc, hpub, hraw, hplural,
    hk, ht, htm, hom, hlm, hst, forEach_ok]

theorem writeChunks_ok (w : Writer) (hw : ∀ h p, w.failure h p = none) (chunks : List String) :
    writeChunks w chunks = ({ w with written := w.written ++ chunks }, none) := by
  induction chunks generalizing w with
  | nil => simp [writeChunks]
  | cons p ps ih =>
    have h1 : w.Write p = ({ w with written := w.written ++ [p] }, none) := by
      simp [Writer.Write, hw]
    simp only [writeChunks, h1]
    rw [ih _ (by simpa using hw)]
    simp

theorem join_append (a b : List String) : String.join (a ++ b) = String.join a ++ String.join b := by
  apply String.ext
  simp

theorem join_cons (a : String) (b : List String) : String.join (a :: b) = a ++ String.join b := by
  apply String.ext
  simp

theorem join_lines (a : String) (l : List String) :
    String.join (l.flatMap (fun e => [a, e])) = String.join (l.map (fun e => a ++ e)) := by
  apply String.ext
  induction l with
  | nil => simp
  | cons e es ih =>
    simp only [String.data_join] at ih
    simp [ih]

/-! ## SnippetWriter.Do on kubeTypeTemplate -/

theorem Do_kubeTypeTemplate (sw : SnippetWriter) (pub raw plural : types_Type → String)
    (m : String → Value) (kt : KubeType) (t tm om lm st : types_Type)
    (hl : sw.left = "$") (hr : sw.right = "$") (herr : sw.err = none)
    (hw : ∀ h p, sw.w.failure h p = none)
    (hpub : sw.funcMap "public" = some pub) (hraw : sw.funcMap "raw" = some raw)
    (hplural : sw.funcMap "publicPlural" = some plural)
    (hk : m "KubeType" = Value.kubeType kt) (ht : m "RawType" = Value.type t)
    (htm : m "TypeMeta" = Value.type tm) (hom : m "ObjectMeta" = Value.type om)
    (hlm : m "ListMeta" = Value.type lm) (hst : m "IstioStatus" = Value.type st) :
    sw.Do kubeTypeTemplate (Value.map m) =
      { sw with
        w := { sw.w with
          written := sw.w.written ++ (execNodes sw.funcMap (Value.map m) kubeTypeTree).1 }
        err := none } := by
  have hex := execNodes_kubeTypeTree sw.funcMap pub raw plural m kt t tm om lm st hpub hraw hplural
    hk ht htm hom hlm hst
  have h2 : (execNodes sw.funcMap (Value.map m) kubeTypeTree).2 = none := by rw [hex]
  unfold SnippetWriter.Do
  rw [herr, hl, hr, templateParse_kubeTypeTemplate sw.funcMap pub raw plural hpub hraw hplural]
  simp only [Option.isSome_none, Bool.false_eq_true, if_false, templateExecute]
  rw [writeChunks_ok sw.w hw, h2]

/-! ## The loop of GenerateType -/

theorem foldl_invariant {σ α : Type} (step : σ → α → σ) (P : List α → σ → Prop) (init : σ)
    (h0 : P [] init) (hs : ∀ l st x, P l st → P (l ++ [x]) (step st x)) (l : List α) :
    P l (l.foldl step init) := by
  induction l using List.reverseRecOn with
  | nil => exact h0
  | append_singleton l x ih =>
    rw [List.foldl_append]
    exact hs l _ x ih

theorem LoopState_init (g : typesGenerator) (c : Context) (t : types_Type) (w : Writer) :
    LoopState c t w [] (g, initialMap c t, NewSnippetWriter w c "$" "$") := by
  refine ⟨rfl, rfl, rfl, rfl, rfl, ?_, ?_, ?_, ?_, ⟨_, ?_, fun _ => rfl⟩⟩ <;>
    simp [initialMap, mapSet]

theorem generateStep_map_other (c : Context)
    (st : typesGenerator × (String → Value) × SnippetWriter) (kubeType : KubeType) (key : String)
    (h1 : key ≠ "IstioStatus") (h2 : key ≠ "KubeType") :
    (generateStep c st kubeType).2.1 key = st.2.1 key := by
  unfold generateStep
  rcases statusOverrideFromComments kubeType.RawType.CommentLines with ⟨name, pkg, found⟩
  cases found <;> simp [mapSet, h1, h2]

theorem generateStep_map_kubeType (c : Context)
    (st : typesGenerator × (String → Value) × SnippetWriter) (kubeType : KubeType) :
    (generateStep c st kubeType).2.1 "KubeType" = Value.kubeType kubeType := by
  unfold generateStep
  simp [mapSet]

theorem generateStep_map_status (c : Context)
    (st : typesGenerator × (String → Value) × SnippetWriter) (kubeType : KubeType) :
    (generateStep c st kubeType).2.1 "IstioStatus" =
      if (statusOverrideFromComments kubeType.RawType.CommentLines).2.2 = true then
        Value.type (c.Universe ⟨(statusOverrideFromComments kubeType.RawType.CommentLines).1,
          (statusOverrideFromComments kubeType.RawType.CommentLines).2.1⟩)
      else st.2.1 "IstioStatus" := by
  unfold generateStep
  rcases statusOverrideFromComments kubeType.RawType.CommentLines with ⟨name, pkg, found⟩
  cases found <;> simp [mapSet]

theorem generateStep_writer (c : Context)
    (st : typesGenerator × (String → Value) × SnippetWriter) (kubeType : KubeType) :
    (generateStep c st kubeType).2.2 =
      st.2.2.Do kubeTypeTemplate (Value.map (generateStep c st kubeType).2.1) := by
  rfl

theorem generateStep_ok (c : Context) (t : types_Type) (w : Writer)
    (pub raw plural : types_Type → String)
    (hpub : c.Namers "public" = some pub) (hraw : c.Namers "raw" = some raw)
    (hplural : c.Namers "publicPlural" = some plural) (hw : ∀ h p, w.failure h p = none)
    (l : List KubeType) (st : typesGenerator × (String → Value) × SnippetWriter)
    (kubeType : KubeType) (hst : LoopState c t w l st) :
    LoopState c t w (l ++ [kubeType]) (generateStep c st kubeType) ∧
    (generateStep c st kubeType).2.2.w.written =
      st.2.2.w.written ++
        (execNodes c.Namers (Value.map (generateStep c st kubeType).2.1) kubeTypeTree).1 := by
  obtain ⟨hf, hl, hr, herr, hfail, ht, htm, hom, hlm, status, hstatus, hdef⟩ := hst
  have hk := generateStep_map_kubeType c st kubeType
  have ht2 : (generateStep c st kubeType).2.1 "RawType" = Value.type t := by
    rw [generateStep_map_other c st kubeType _ (by decide) (by decide), ht]
  have htm2 : (generateStep c st kubeType).2.1 "TypeMeta" =
      Value.type (c.Universe ⟨"TypeMeta", "k8s.io/apimachinery/pkg/apis/meta/v1"⟩) := by
    rw [generateStep_map_other c st kubeType _ (by decide) (by decide), htm]
  have hom2 : (generateStep c st kubeType).2.1 "ObjectMeta" =
      Value.type (c.Universe ⟨"ObjectMeta", "k8s.io/apimachinery/pkg/apis/meta/v1"⟩) := by
    rw [generateStep_map_other c st kubeType _ (by decide) (by decide), hom]
  have hlm2 : (generateStep c st kubeType).2.1 "ListMeta" =
      Value.type (c.Universe ⟨"ListMeta", "k8s.io/apimachinery/pkg/apis/meta/v1"⟩) := by
    rw [generateStep_map_other c st kubeType _ (by decide) (by decide), hlm]
  have hs2 := generateStep_map_status c st kubeType
  obtain ⟨status2, hstatus2, hdef2⟩ : ∃ status2,
      (generateStep c st kubeType).2.1 "IstioStatus" = Value.type status2 ∧
      ((∀ k ∈ l ++ [kubeType], (statusOverrideFromComments k.RawType.CommentLines).2.2 = false) →
        status2 = c.Universe ⟨"IstioStatus", "istio.io/api/meta/v1alpha1"⟩) := by
    by_cases hfound : (statusOverrideFromComments kubeType.RawType.CommentLines).2.2 = true
    · rw [if_pos hfound] at hs2
      refine ⟨_, hs2, ?_⟩
      intro hall
      have := hall kubeType (by simp)
      rw [hfound] at this
      cases this
    · rw [if_neg hfound, hstatus] at hs2
      refine ⟨status, hs2, ?_⟩
      intro hall
      exact hdef (fun k hk => hall k (List.mem_append_left _ hk))
  have hw2 : ∀ h p, st.2.2.w.failure h p = none := by
    intro h p
    rw [hfail]
    exact hw h p
  have hdo := Do_kubeTypeTemplate st.2.2 pub raw plural (generateStep c st kubeType).2.1 kubeType
    t _ _ _ status2 hl hr herr hw2 (hf ▸ hpub) (hf ▸ hraw) (hf ▸ hplural) hk ht2 htm2 hom2 hlm2
    hstatus2
  rw [← generateStep_writer] at hdo
  refine ⟨⟨?_, ?_, ?_, ?_, ?_, ht2, htm2, hom2, hlm2, status2, hstatus2, hdef2⟩, ?_⟩
  · rw [hdo]; exact hf
  · rw [hdo]; exact hl
  · rw [hdo]; exact hr
  · rw [hdo]
  · rw [hdo]; exact hfail
  · rw [hdo, hf]

theorem loop_ok (g : typesGenerator) (c : Context) (t : types_Type) (w : Writer)
    (pub raw plural : types_Type → String)
    (hpub : c.Namers "public" = some pub) (hraw : c.Namers "raw" = some raw)
    (hplural : c.Namers "publicPlural" = some plural) (hw : ∀ h p, w.failure h p = none)
    (l : List KubeType) :
    LoopState c t w l (l.foldl (generateStep c) (g, initialMap c t, NewSnippetWriter w c "$" "$")) :=
  foldl_invariant (generateStep c) (LoopState c t w)
    (g, initialMap c t, NewSnippetWriter w c "$" "$") (LoopState_init g c t w)
    (fun l st x h => (generateStep_ok c t w pub raw plural hpub hraw hplural hw l st x h).1) l

theorem loop_written_grows (c : Context) (t : types_Type) (w : Writer)
    (pub raw plural : types_Type → String)
    (hpub : c.Namers "public" = some pub) (hraw : c.Namers "raw" = some raw)
    (hplural : c.Namers "publicPlural" = some plural) (hw : ∀ h p, w.failure h p = none)
    (l0 : List KubeType) (st : typesGenerator × (String → Value) × SnippetWriter)
    (hst : LoopState c t w l0 st) (l : List KubeType) :
    ∃ later, (l.foldl (generateStep c) st).2.2.w.written = st.2.2.w.written ++ later := by
  have key := foldl_invariant (generateStep c)
    (fun l s => LoopState c t w (l0 ++ l) s ∧ ∃ later, s.2.2.w.written = st.2.2.w.written ++ later)
    st ⟨by simpa using hst, [], by simp⟩
    (fun l s x h => by
      obtain ⟨hs, later, hl⟩ := h
      have := generateStep_ok c t w pub raw plural hpub hraw hplural hw (l0 ++ l) s x hs
      refine ⟨by simpa [List.append_assoc] using this.1,
        later ++ (execNodes c.Namers (Value.map (generateStep c s x).2.1) kubeTypeTree).1, ?_⟩
      rw [this.2, hl, List.append_assoc]) l
  exact key.2

theorem join_nil : String.join [] = "" := rfl

theorem rendered_text (funcMap : String → Option (types_Type → String))
    (pub raw plural : types_Type → String) (m : String → Value) (kt : KubeType)
    (t tm om lm st : types_Type)
    (hpub : funcMap "public" = some pub) (hraw : funcMap "raw" = some raw)
    (hplural : funcMap "publicPlural" = some plural)
    (hk : m "KubeType" = Value.kubeType kt) (ht : m "RawType" = Value.type t)
    (htm : m "TypeMeta" = Value.type tm) (hom : m "ObjectMeta" = Value.type om)
    (hlm : m "ListMeta" = Value.type lm) (hst : m "IstioStatus" = Value.type st) :
    String.join (execNodes funcMap (Value.map m) kubeTypeTree).1 =
      String.join (t.SecondClosestCommentLines.map (fun e => "\n// " ++ e)) ++
      String.join (kt.Tags.map (fun e => "\n// +" ++ e)) ++ "\n" ++
      "// +k8s:deepcopy-gen:interfaces=k8s.io/apimachinery/pkg/runtime.Object\n\n" ++
      String.join (t.CommentLines.map (fun e => "\n// " ++ e)) ++ "\n" ++
      "type " ++ pub kt.Type_ ++ " struct \x7b\n\t" ++
      raw tm ++ " `json:\",inline\"`\n\t// +optional\n\t" ++
      raw om ++ (" `json:\"metadata,omitempty\" protobuf:\"bytes,1,opt,name=metadata\"`\n\n" ++
        "\t// Spec defines the implementation of this definition.\n\t// +optional\n\tSpec ") ++
      raw t ++ " `json:\"spec,omitempty\" protobuf:\"bytes,2,opt,name=spec\"`\n\n\tStatus " ++
      raw st ++ " `json:\"status,omitempty\"`\n\x7d\n" ++ "\n" ++
      "// +k8s:deepcopy-gen:interfaces=k8s.io/apimachinery/pkg/runtime.Object\n\n" ++
      "// " ++ pub kt.Type_ ++ "List is a collection of " ++ plural kt.Type_ ++ ".\ntype " ++
      pub kt.Type_ ++ "List struct \x7b\n\t" ++
      raw tm ++ " `json:\",inline\"`\n\t// +optional\n\t" ++
      raw lm ++ (" `json:\"metadata,omitempty\" protobuf:\"bytes,1,opt,name=metadata\"`\n" ++
        "\tItems           []*") ++
      raw kt.Type_ ++ " `json:\"items\" protobuf:\"bytes,2,rep,name=items\"`\n\x7d\n" := by
  rw [execNodes_kubeTypeTree funcMap pub raw plural m kt t tm om lm st hpub hraw hplural hk ht htm
    hom hlm hst]
  simp only [join_append, join_cons, join_lines, join_nil, String.append_assoc, String.append_empty]

/-! ## What one expansion writes -/

theorem expansion_written (g : typesGenerator) (c : Context) (t : types_Type) (w : Writer)
    (pub raw plural : types_Type → String)
    (hpub : c.Namers "public" = some pub) (hraw : c.Namers "raw" = some raw)
    (hplural : c.Namers "publicPlural" = some plural) (hw : ∀ h p, w.failure h p = none)
    (pre : List KubeType) (kubeType : KubeType) (rest : List KubeType)
    (hk : g.source.KubeTypes t = pre ++ kubeType :: rest) :
    ∃ status later m,
      m = ((pre ++ [kubeType]).foldl (generateStep c)
        (g, initialMap c t, NewSnippetWriter w c "$" "$")).2.1 ∧
      m "IstioStatus" = Value.type status ∧
      (∀ name pkg, statusOverrideFromComments kubeType.RawType.CommentLines = (name, pkg, true) →
        status = c.Universe ⟨name, pkg⟩) ∧
      ((∀ k ∈ pre ++ [kubeType],
          (statusOverrideFromComments k.RawType.CommentLines).2.2 = false) →
        status = c.Universe ⟨"IstioStatus", "istio.io/api/meta/v1alpha1"⟩) ∧
      ((pre ++ [kubeType]).foldl (generateStep c)
          (g, initialMap c t, NewSnippetWriter w c "$" "$")).2.2.w.written =
        (pre.foldl (generateStep c)
          (g, initialMap c t, NewSnippetWriter w c "$" "$")).2.2.w.written ++
        (execNodes c.Namers (Value.map m) kubeTypeTree).1 ∧
      (GenerateType g c t w).2.1.written =
        ((pre ++ [kubeType]).foldl (generateStep c)
          (g, initialMap c t, NewSnippetWriter w c "$" "$")).2.2.w.written ++ later ∧
      String.join (execNodes c.Namers (Value.map m) kubeTypeTree).1 =
        String.join (t.SecondClosestCommentLines.map (fun e => "\n// " ++ e)) ++
        String.join (kubeType.Tags.map (fun e => "\n// +" ++ e)) ++ "\n" ++
        "// +k8s:deepcopy-gen:interfaces=k8s.io/apimachinery/pkg/runtime.Object\n\n" ++
        String.join (t.CommentLines.map (fun e => "\n// " ++ e)) ++ "\n" ++
        "type " ++ pub kubeType.Type_ ++ " struct \x7b\n\t" ++
        raw (c.Universe ⟨"TypeMeta", "k8s.io/apimachinery/pkg/apis/meta/v1"⟩) ++
        " `json:\",inline\"`\n\t// +optional\n\t" ++
        raw (c.Universe ⟨"ObjectMeta", "k8s.io/apimachinery/pkg/apis/meta/v1"⟩) ++
        (" `json:\"metadata,omitempty\" protobuf:\"bytes,1,opt,name=metadata\"`\n\n" ++
          "\t// Spec defines the implementation of this definition.\n\t// +optional\n\tSpec ") ++
        raw t ++ " `json:\"spec,omitempty\" protobuf:\"bytes,2,opt,name=spec\"`\n\n\tStatus " ++
        raw status ++ " `json:\"status,omitempty\"`\n\x7d\n" ++ "\n" ++
        "// +k8s:deepcopy-gen:interfaces=k8s.io/apimachinery/pkg/runtime.Object\n\n" ++
        "// " ++ pub kubeType.Type_ ++ "List is a collection of " ++ plural kubeType.Type_ ++
        ".\ntype " ++ pub kubeType.Type_ ++ "List struct \x7b\n\t" ++
        raw (c.Universe ⟨"TypeMeta", "k8s.io/apimachinery/pkg/apis/meta/v1"⟩) ++
        " `json:\",inline\"`\n\t// +optional\n\t" ++
        raw (c.Universe ⟨"ListMeta", "k8s.io/apimachinery/pkg/apis/meta/v1"⟩) ++
        (" `json:\"metadata,omitempty\" protobuf:\"bytes,1,opt,name=metadata\"`\n" ++
          "\tItems           []*") ++
        raw kubeType.Type_ ++ " `json:\"items\" protobuf:\"bytes,2,rep,name=items\"`\n\x7d\n" := by
  have hpre := loop_ok g c t w pub raw plural hpub hraw hplural hw pre
  have hstep := generateStep_ok c t w pub raw plural hpub hraw hplural hw pre _ kubeType hpre
  obtain ⟨hstate, hwritten⟩ := hstep
  have hfold : (pre ++ [kubeType]).foldl (generateStep c)
      (g, initialMap c t, NewSnippetWriter w c "$" "$") =
      generateStep c (pre.foldl (generateStep c)
        (g, initialMap c t, NewSnippetWriter w c "$" "$")) kubeType := by
    rw [List.foldl_append]; rfl
  obtain ⟨later, hlater⟩ := loop_written_grows c t w pub raw plural hpub hraw hplural hw
    (pre ++ [kubeType]) _ hstate rest
  have hstate2 := hstate
  obtain ⟨-, -, -, -, -, ht, htm, hom, hlm, status, hstatus, hdef⟩ := hstate2
  have hkt := generateStep_map_kubeType c (pre.foldl (generateStep c)
    (g, initialMap c t, NewSnippetWriter w c "$" "$")) kubeType
  refine ⟨status, later, _, rfl, ?_, ?_, ?_, ?_, ?_, ?_⟩
  · rw [hfold]; exact hstatus
  · intro name pkg hov
    have hs := generateStep_map_status c (pre.foldl (generateStep c)
      (g, initialMap c t, NewSnippetWriter w c "$" "$")) kubeType
    rw [hov] at hs
    simp only [if_true] at hs
    rw [hstatus] at hs
    exact Value.type.inj hs
  · exact hdef
  · rw [hfold]; exact hwritten
  · have hG : (GenerateType g c t w).2.1 =
        (rest.foldl (generateStep c) (generateStep c (pre.foldl (generateStep c)
          (g, initialMap c t, NewSnippetWriter w c "$" "$")) kubeType)).2.2.w := by
      unfold GenerateType
      simp only [hk, List.foldl_append, List.foldl_cons]
    rw [hG, hlater, hfold]
  · rw [hfold]
    exact rendered_text c.Namers pub raw plural _ kubeType t _ _ _ status hpub hraw hplural hkt ht
      htm hom hlm hstatus

/-- C6, the generated wrapper type: for every kube type in the list KubeTypes(t), when the
context has the namers public, raw and publicPlural and the writer accepts every write,
the expansion for that kube type is written to the output, and its text contains the
deepcopy-gen marker line, then the comment lines of the raw type, then the declaration of
a struct named by the public name of the kube type with, in this order, the embedded
TypeMeta, the embedded ObjectMeta, the field Spec of the raw type and the field Status of
the status type bound for this expansion, each with its tag. That status type is the
override of the kube type when its directive is found, and IstioStatus when no kube type
so far carried a directive. -/
theorem wrapper_struct_rendered (g : typesGenerator) (c : Context) (t : types_Type) (w : Writer)
    (pub raw plural : types_Type → String)
    (hpub : c.Namers "public" = some pub) (hraw : c.Namers "raw" = some raw)
    (hplural : c.Namers "publicPlural" = some plural) (hw : ∀ h p, w.failure h p = none)
    (pre : List KubeType) (kubeType : KubeType) (rest : List KubeType)
    (hk : g.source.KubeTypes t = pre ++ kubeType :: rest) :
    ∃ status chunks later head tail,
      ((pre ++ [kubeType]).foldl (generateStep c)
        (g, initialMap c t, NewSnippetWriter w c "$" "$")).2.1 "IstioStatus" =
          Value.type status ∧
      (∀ name pkg, statusOverrideFromComments kubeType.RawType.CommentLines = (name, pkg, true) →
        status = c.Universe ⟨name, pkg⟩) ∧
      ((∀ k ∈ pre ++ [kubeType],
          (statusOverrideFromComments k.RawType.CommentLines).2.2 = false) →
        status = c.Universe ⟨"IstioStatus", "istio.io/api/meta/v1alpha1"⟩) ∧
      ((pre ++ [kubeType]).foldl (generateStep c)
          (g, initialMap c t, NewSnippetWriter w c "$" "$")).2.2.w.written =
        (pre.foldl (generateStep c)
          (g, initialMap c t, NewSnippetWriter w c "$" "$")).2.2.w.written ++ chunks ∧
      (GenerateType g c t w).2.1.written =
        ((pre ++ [kubeType]).foldl (generateStep c)
          (g, initialMap c t, NewSnippetWriter w c "$" "$")).2.2.w.written ++ later ∧
      String.join chunks =
        head ++ "\n" ++
        "// +k8s:deepcopy-gen:interfaces=k8s.io/apimachinery/pkg/runtime.Object\n\n" ++
        String.join (t.CommentLines.map (fun e => "\n// " ++ e)) ++ "\n" ++
        "type " ++ pub kubeType.Type_ ++ " struct \x7b\n\t" ++
        raw (c.Universe ⟨"TypeMeta", "k8s.io/apimachinery/pkg/apis/meta/v1"⟩) ++
        " `json:\",inline\"`\n\t// +optional\n\t" ++
        raw (c.Universe ⟨"ObjectMeta", "k8s.io/apimachinery/pkg/apis/meta/v1"⟩) ++
        (" `json:\"metadata,omitempty\" protobuf:\"bytes,1,opt,name=metadata\"`\n\n" ++
          "\t// Spec defines the implementation of this definition.\n\t// +optional\n\tSpec ") ++
        raw t ++ " `json:\"spec,omitempty\" protobuf:\"bytes,2,opt,name=spec\"`\n\n\tStatus " ++
        raw status ++ " `json:\"status,omitempty\"`\n\x7d\n" ++ tail := by
  obtain ⟨status, later, m, hm, hstatus, hov, hdef, hstep, hwritten, htext⟩ :=
    expansion_written g c t w pub raw plural hpub hraw hplural hw pre kubeType rest hk
  refine ⟨status, _, later,
    String.join (t.SecondClosestCommentLines.map (fun e => "\n// " ++ e)) ++
      String.join (kubeType.Tags.map (fun e => "\n// +" ++ e)),
    "\n" ++ "// +k8s:deepcopy-gen:interfaces=k8s.io/apimachinery/pkg/runtime.Object\n\n" ++
      "// " ++ pub kubeType.Type_ ++ "List is a collection of " ++ plural kubeType.Type_ ++
      ".\ntype " ++ pub kubeType.Type_ ++ "List struct \x7b\n\t" ++
      raw (c.Universe ⟨"TypeMeta", "k8s.io/apimachinery/pkg/apis/meta/v1"⟩) ++
      " `json:\",inline\"`\n\t// +optional\n\t" ++
      raw (c.Universe ⟨"ListMeta", "k8s.io/apimachinery/pkg/apis/meta/v1"⟩) ++
      (" `json:\"metadata,omitempty\" protobuf:\"bytes,1,opt,name=metadata\"`\n" ++
        "\tItems           []*") ++
      raw kubeType.Type_ ++ " `json:\"items\" protobuf:\"bytes,2,rep,name=items\"`\n\x7d\n",
    hm ▸ hstatus, hov, hdef, hstep, hwritten, ?_⟩
  rw [htext]
  simp only [String.append_assoc]

theorem wrapper_struct_rendered_witness :
    ∃ status chunks later head tail,
      ((([] : List KubeType) ++ [overriddenKubeType]).foldl (generateStep exampleContext)
        (exampleGenerator, initialMap exampleContext overriddenRawType,
            NewSnippetWriter bufferWriter exampleContext "$" "$")).2.1 "IstioStatus" =
          Value.type status ∧
      (∀ name pkg,
          statusOverrideFromComments overriddenKubeType.RawType.CommentLines = (name, pkg, true) →
        status = exampleContext.Universe ⟨name, pkg⟩) ∧
      ((∀ k ∈ ([] : List KubeType) ++ [overriddenKubeType],
          (statusOverrideFromComments k.RawType.CommentLines).2.2 = false) →
        status = exampleContext.Universe ⟨"IstioStatus", "istio.io/api/meta/v1alpha1"⟩) ∧
      ((([] : List KubeType) ++ [overriddenKubeType]).foldl (generateStep exampleContext)
          (exampleGenerator, initialMap exampleContext overriddenRawType,
            NewSnippetWriter bufferWriter exampleContext "$" "$")).2.2.w.written =
        (([] : List KubeType).foldl (generateStep exampleContext)
          (exampleGenerator, initialMap exampleContext overriddenRawType,
            NewSnippetWriter bufferWriter exampleContext "$" "$")).2.2.w.written ++ chunks ∧
      (GenerateType exampleGenerator exampleContext overriddenRawType bufferWriter).2.1.written =
        ((([] : List KubeType) ++ [overriddenKubeType]).foldl (generateStep exampleContext)
          (exampleGenerator, initialMap exampleContext overriddenRawType,
            NewSnippetWriter bufferWriter exampleContext "$" "$")).2.2.w.written ++ later ∧
      String.join chunks =
        head ++ "\n" ++
        "// +k8s:deepcopy-gen:interfaces=k8s.io/apimachinery/pkg/runtime.Object\n\n" ++
        String.join (overriddenRawType.CommentLines.map (fun e => "\n// " ++ e)) ++ "\n" ++
        "type " ++ publicNamer overriddenKubeType.Type_ ++ " struct \x7b\n\t" ++
        rawNamer
          (exampleContext.Universe ⟨"TypeMeta", "k8s.io/apimachinery/pkg/apis/meta/v1"⟩) ++
        " `json:\",inline\"`\n\t// +optional\n\t" ++
        rawNamer
          (exampleContext.Universe ⟨"ObjectMeta", "k8s.io/apimachinery/pkg/apis/meta/v1"⟩) ++
        (" `json:\"metadata,omitempty\" protobuf:\"bytes,1,opt,name=metadata\"`\n\n" ++
          "\t// Spec defines the implementation of this definition.\n\t// +optional\n\tSpec ") ++
        rawNamer overriddenRawType ++
          " `json:\"spec,omitempty\" protobuf:\"bytes,2,opt,name=spec\"`\n\n\tStatus " ++
        rawNamer status ++ " `json:\"status,omitempty\"`\n\x7d\n" ++ tail :=
  wrapper_struct_rendered exampleGenerator exampleContext overriddenRawType bufferWriter
    publicNamer rawNamer publicPluralNamer rfl rfl rfl (fun _ _ => rfl) [] overriddenKubeType
    [plainKubeType] rfl

/-- C7, the generated list type: under the same conditions the text of the expansion
ends, right after the wrapper struct, with a blank line, the deepcopy-gen marker line, the
comment naming the collection, and the declaration of a struct named by the public name
followed by List with, in this order, the embedded TypeMeta, the embedded ListMeta and the
field Items, a slice of pointers to the kube type, each with its tag. -/
theorem list_struct_rendered (g : typesGenerator) (c : Context) (t : types_Type) (w : Writer)
    (pub raw plural : types_Type → String)
    (hpub : c.Namers "public" = some pub) (hraw : c.Namers "raw" = some raw)
    (hplural : c.Namers "publicPlural" = some plural) (hw : ∀ h p, w.failure h p = none)
    (pre : List KubeType) (kubeType : KubeType) (rest : List KubeType)
    (hk : g.source.KubeTypes t = pre ++ kubeType :: rest) :
    ∃ status chunks later head,
      ((pre ++ [kubeType]).foldl (generateStep c)
        (g, initialMap c t, NewSnippetWriter w c "$" "$")).2.1 "IstioStatus" =
          Value.type status ∧
      ((pre ++ [kubeType]).foldl (generateStep c)
          (g, initialMap c t, NewSnippetWriter w c "$" "$")).2.2.w.written =
        (pre.foldl (generateStep c)
          (g, initialMap c t, NewSnippetWriter w c "$" "$")).2.2.w.written ++ chunks ∧
      (GenerateType g c t w).2.1.written =
        ((pre ++ [kubeType]).foldl (generateStep c)
          (g, initialMap c t, NewSnippetWriter w c "$" "$")).2.2.w.written ++ later ∧
      String.join chunks =
        head ++ "\n" ++
        "type " ++ pub kubeType.Type_ ++ " struct \x7b\n\t" ++
        raw (c.Universe ⟨"TypeMeta", "k8s.io/apimachinery/pkg/apis/meta/v1"⟩) ++
        " `json:\",inline\"`\n\t// +optional\n\t" ++
        raw (c.Universe ⟨"ObjectMeta", "k8s.io/apimachinery/pkg/apis/meta/v1"⟩) ++
        (" `json:\"metadata,omitempty\" protobuf:\"bytes,1,opt,name=metadata\"`\n\n" ++
          "\t// Spec defines the implementation of this definition.\n\t// +optional\n\tSpec ") ++
        raw t ++ " `json:\"spec,omitempty\" protobuf:\"bytes,2,opt,name=spec\"`\n\n\tStatus " ++
        raw status ++ " `json:\"status,omitempty\"`\n\x7d\n" ++ "\n" ++
        "// +k8s:deepcopy-gen:interfaces=k8s.io/apimachinery/pkg/runtime.Object\n\n" ++
        "// " ++ pub kubeType.Type_ ++ "List is a collection of " ++ plural kubeType.Type_ ++
        ".\ntype " ++ pub kubeType.Type_ ++ "List struct \x7b\n\t" ++
        raw (c.Universe ⟨"TypeMeta", "k8s.io/apimachinery/pkg/apis/meta/v1"⟩) ++
        " `json:\",inline\"`\n\t// +optional\n\t" ++
        raw (c.Universe ⟨"ListMeta", "k8s.io/apimachinery/pkg/apis/meta/v1"⟩) ++
        (" `json:\"metadata,omitempty\" protobuf:\"bytes,1,opt,name=metadata\"`\n" ++
          "\tItems           []*") ++
        raw kubeType.Type_ ++ " `json:\"items\" protobuf:\"bytes,2,rep,name=items\"`\n\x7d\n" := by
  obtain ⟨status, later, m, hm, hstatus, -, -, hstep, hwritten, htext⟩ :=
    expansion_written g c t w pub raw plural hpub hraw hplural hw pre kubeType rest hk
  refine ⟨status, _, later,
    String.join (t.SecondClosestCommentLines.map (fun e => "\n// " ++ e)) ++
      String.join (kubeType.Tags.map (fun e => "\n// +" ++ e)) ++ "\n" ++
      "// +k8s:deepcopy-gen:interfaces=k8s.io/apimachinery/pkg/runtime.Object\n\n" ++
      String.join (t.CommentLines.map (fun e => "\n// " ++ e)),
    hm ▸ hstatus, hstep, hwritten, ?_⟩
  rw [htext]

theorem list_struct_rendered_witness :
    ∃ status chunks later head,
      ((([] : List KubeType) ++ [overriddenKubeType]).foldl (generateStep exampleContext)
        (exampleGenerator, initialMap exampleContext overriddenRawType,
            NewSnippetWriter bufferWriter exampleContext "$" "$")).2.1 "IstioStatus" =
          Value.type status ∧
      ((([] : List KubeType) ++ [overriddenKubeType]).foldl (generateStep exampleContext)
          (exampleGenerator, initialMap exampleContext overriddenRawType,
            NewSnippetWriter bufferWriter exampleContext "$" "$")).2.2.w.written =
        (([] : List KubeType).foldl (generateStep exampleContext)
          (exampleGenerator, initialMap exampleContext overriddenRawType,
            NewSnippetWriter bufferWriter exampleContext "$" "$")).2.2.w.written ++ chunks ∧
      (GenerateType exampleGenerator exampleContext overriddenRawType bufferWriter).2.1.written =
        ((([] : List KubeType) ++ [overriddenKubeType]).foldl (generateStep exampleContext)
          (exampleGenerator, initialMap exampleContext overriddenRawType,
            NewSnippetWriter bufferWriter exampleContext "$" "$")).2.2.w.written ++ later ∧
      String.join chunks =
        head ++ "\n" ++
        "type " ++ publicNamer overriddenKubeType.Type_ ++ " struct \x7b\n\t" ++
        rawNamer
          (exampleContext.Universe ⟨"TypeMeta", "k8s.io/apimachinery/pkg/apis/meta/v1"⟩) ++
        " `json:\",inline\"`\n\t// +optional\n\t" ++
        rawNamer
          (exampleContext.Universe ⟨"ObjectMeta", "k8s.io/apimachinery/pkg/apis/meta/v1"⟩) ++
        (" `json:\"metadata,omitempty\" protobuf:\"bytes,1,opt,name=metadata\"`\n\n" ++
          "\t// Spec defines the implementation of this definition.\n\t// +optional\n\tSpec ") ++
        rawNamer overriddenRawType ++
          " `json:\"spec,omitempty\" protobuf:\"bytes,2,opt,name=spec\"`\n\n\tStatus " ++
        rawNamer status ++ " `json:\"status,omitempty\"`\n\x7d\n" ++ "\n" ++
        "// +k8s:deepcopy-gen:interfaces=k8s.io/apimachinery/pkg/runtime.Object\n\n" ++
        "// " ++ publicNamer overriddenKubeType.Type_ ++ "List is a collection of " ++ publicPluralNamer
          overriddenKubeType.Type_ ++
        ".\ntype " ++ publicNamer overriddenKubeType.Type_ ++ "List struct \x7b\n\t" ++
        rawNamer
          (exampleContext.Universe ⟨"TypeMeta", "k8s.io/apimachinery/pkg/apis/meta/v1"⟩) ++
        " `json:\",inline\"`\n\t// +optional\n\t" ++
        rawNamer
          (exampleContext.Universe ⟨"ListMeta", "k8s.io/apimachinery/pkg/apis/meta/v1"⟩) ++
        (" `json:\"metadata,omitempty\" protobuf:\"bytes,1,opt,name=metadata\"`\n" ++
          "\tItems           []*") ++
        rawNamer overriddenKubeType.Type_ ++ " `json:\"items\" protobuf:\"bytes,2,rep,name=items\"`\n\x7d\n" :=
  list_struct_rendered exampleGenerator exampleContext overriddenRawType bufferWriter
    publicNamer rawNamer publicPluralNamer rfl rfl rfl (fun _ _ => rfl) [] overriddenKubeType
    [plainKubeType] rfl

/-! ## Errors of GenerateType -/

theorem Do_err_sticky (sw : SnippetWriter) (format : String) (args : Value) (e : Error)
    (h : sw.err = some e) : (sw.Do format args).err = some e := by
  unfold SnippetWriter.Do
  simp [h]

theorem generateStep_err_sticky (c : Context)
    (st : typesGenerator × (String → Value) × SnippetWriter) (kubeType : KubeType) (e : Error)
    (h : st.2.2.err = some e) : (generateStep c st kubeType).2.2.err = some e := by
  rw [generateStep_writer]
  exact Do_err_sticky _ _ _ e h

theorem loop_err_sticky (c : Context) (l : List KubeType)
    (st : typesGenerator × (String → Value) × SnippetWriter) (e : Error)
    (h : st.2.2.err = some e) : (l.foldl (generateStep c) st).2.2.err = some e := by
  induction l generalizing st with
  | nil => exact h
  | cons x xs ih => exact ih _ (generateStep_err_sticky c st x e h)

theorem loop_err_first (c : Context) (l : List KubeType)
    (st : typesGenerator × (String → Value) × SnippetWriter) (e : Error)
    (h : (l.foldl (generateStep c) st).2.2.err = some e) :
    st.2.2.err = some e ∨
    ∃ k, k < l.length ∧ ((l.take k).foldl (generateStep c) st).2.2.err = none ∧
      ((l.take (k + 1)).foldl (generateStep c) st).2.2.err = some e := by
  induction l generalizing st with
  | nil => left; exact h
  | cons x xs ih =>
    rcases ih (generateStep c st x) h with h1 | ⟨k, hk, hnone, hsome⟩
    · cases hst : st.2.2.err with
      | none =>
        right
        exact ⟨0, by simp, by simpa using hst, by simpa using h1⟩
      | some e2 =>
        left
        have := generateStep_err_sticky c st x e2 hst
        rw [h1] at this
        rw [this]
    · right
      exact ⟨k + 1, by simpa using hk, by simpa using hnone, by simpa using hsome⟩

/-- C8, error propagation: GenerateType returns the error of the snippet writer; that is
an error e exactly when some expansion, started with no error recorded, left the error e
recorded; with no kube types it leaves the generator and the writer as they were and
returns nil; and when the three namers are defined and the writer accepts every write it
returns nil whatever the comment lines of the kube types are. -/
theorem GenerateType_error (g : typesGenerator) (c : Context) (t : types_Type) (w : Writer) :
    (GenerateType g c t w).2.2 =
      SnippetWriter.Error ((g.source.KubeTypes t).foldl (generateStep c)
        (g, initialMap c t, NewSnippetWriter w c "$" "$")).2.2 ∧
    (∀ e, (GenerateType g c t w).2.2 = some e ↔
      ∃ k, k < (g.source.KubeTypes t).length ∧
        (((g.source.KubeTypes t).take k).foldl (generateStep c)
          (g, initialMap c t, NewSnippetWriter w c "$" "$")).2.2.err = none ∧
        (((g.source.KubeTypes t).take (k + 1)).foldl (generateStep c)
          (g, initialMap c t, NewSnippetWriter w c "$" "$")).2.2.err = some e) ∧
    (g.source.KubeTypes t = [] → GenerateType g c t w = (g, w, none)) ∧
    (∀ pub raw plural, c.Namers "public" = some pub → c.Namers "raw" = some raw →
      c.Namers "publicPlural" = some plural → (∀ h p, w.failure h p = none) →
      (GenerateType g c t w).2.2 = none) := by
  refine ⟨rfl, ?_, ?_, ?_⟩
  · intro e
    constructor
    · intro h
      rcases loop_err_first c (g.source.KubeTypes t)
        (g, initialMap c t, NewSnippetWriter w c "$" "$") e h with h0 | h1
      · simp [NewSnippetWriter] at h0
      · exact h1
    · rintro ⟨k, -, -, hsome⟩
      have hsplit : (g.source.KubeTypes t).foldl (generateStep c)
          (g, initialMap c t, NewSnippetWriter w c "$" "$") =
          ((g.source.KubeTypes t).drop (k + 1)).foldl (generateStep c)
            (((g.source.KubeTypes t).take (k + 1)).foldl (generateStep c)
              (g, initialMap c t, NewSnippetWriter w c "$" "$")) := by
        rw [← List.foldl_append, List.take_append_drop]
      show (((g.source.KubeTypes t).foldl (generateStep c)
          (g, initialMap c t, NewSnippetWriter w c "$" "$")).2.2).err = some e
      rw [hsplit]
      exact loop_err_sticky c _ _ e hsome
  · intro h
    simp [GenerateType, h, NewSnippetWriter, SnippetWriter.Error]
  · intro pub raw plural hpub hraw hplural hw
    have := loop_ok g c t w pub raw plural hpub hraw hplural hw (g.source.KubeTypes t)
    exact this.2.2.2.1

theorem GenerateType_error_witness :
    (GenerateType exampleGenerator exampleContext overriddenRawType bufferWriter).2.2 = none :=
  (GenerateType_error exampleGenerator exampleContext overriddenRawType bufferWriter).2.2.2
    _ _ _ rfl rfl rfl (fun _ _ => rfl)

set_option maxRecDepth 100000 in
/-- A rejected write is what GenerateType returns, and nothing is written. -/
theorem GenerateType_closed_writer :
    GenerateType exampleGenerator exampleContext overriddenRawType closedWriter =
      (⟨exampleGenerator.source, [overriddenKubeType.Type_, plainKubeType.Type_]⟩, closedWriter,
        some "write on closed writer") := by
  rfl

/-! ## The status binding -/

end KubetypeGen
